import Mathlib

/-!
Verification of the HyperShare core against its specification.

Shallow embedding conventions:
  - C++ byte buffers (std::vector of uint8_t, std::string payload bytes) are
    Lists of Nat; every byte written by a serializer is reduced mod 256, as the
    C++ types guarantee.
  - Fixed-width machine integers are Nat with explicit `% 2 ^ w` at the points
    where the C++ code truncates (static_cast, uint8_t arithmetic).
  - C++ doubles used only for route metrics and reliability scores are modelled
    as exact rationals; only comparisons of metrics feed back into control flow.
  - Fallible deserializers (which throw in C++) return Option.
  - The external BLAKE3 library is out of scope of the repository and is passed
    in as an abstract hash-function parameter wherever the code invokes it.
-/

namespace HyperShare

/-! ## Framed wire protocol (src/network/protocol.cpp, src/network/connection.cpp) -/

def PROTOCOL_MAGIC : Nat := 0x48595045

def PROTOCOL_VERSION : Nat := 1

/-- MessageHeader from include/hypershare/network/protocol.hpp. `type` and
`flags` are the raw uint8 codes; `checksum` is the 4 CRC bytes. -/
structure MessageHeader where
  magic : Nat
  version : Nat
  type : Nat
  flags : Nat
  message_id : Nat
  payload_size : Nat
  timestamp : Nat
  checksum : List Nat
deriving Repr, DecidableEq

/-- MessageHeader::is_valid (protocol.cpp lines 127-129): checks magic and
version only. -/
def MessageHeader.is_valid (h : MessageHeader) : Bool :=
  h.magic == PROTOCOL_MAGIC && h.version == PROTOCOL_VERSION

/-- The size guard of Connection::do_read_payload (connection.cpp lines
140-145): a payload larger than 10 MiB closes the connection. -/
def payload_size_allowed (payload_size : Nat) : Bool :=
  !(payload_size > 10 * 1024 * 1024)

/-- The acceptance decision of the connection read path
(Connection::do_read_header + Connection::do_read_payload): the header must
pass is_valid, and when a payload is present its size must pass the
do_read_payload guard. -/
def connection_accepts_header (h : MessageHeader) : Bool :=
  h.is_valid && (if h.payload_size > 0 then payload_size_allowed h.payload_size else true)

/-- A syntactically well-formed header with magic and version correct but an
oversized payload_size field, used to separate is_valid from the payload
limit. -/
def oversized_header : MessageHeader :=
  { magic := 0x48595045
    version := 1
    type := 0x03
    flags := 0
    message_id := 0
    payload_size := 10485761
    timestamp := 0
    checksum := [0, 0, 0, 0] }

/-- C1 counterexample: the claim `is_valid ↔ magic ∧ version ∧ payload_size ≤
10485760` is false: a header with correct magic and version but payload_size
= 10 MiB + 1 still satisfies is_valid. -/
theorem c1_counterexample :
    ¬(oversized_header.is_valid = true ↔
      (oversized_header.magic = 0x48595045 ∧ oversized_header.version = 1 ∧
        oversized_header.payload_size ≤ 10485760)) := by
  decide

/-- C1 (amended): MessageHeader::is_valid holds iff magic and version match;
the 10 MiB payload-size limit is enforced separately by do_read_payload, so
the connection read path accepts a header iff magic and version match and
payload_size ≤ 10485760. -/
theorem c1_header_validity (h : MessageHeader) :
    (h.is_valid = true ↔ (h.magic = PROTOCOL_MAGIC ∧ h.version = PROTOCOL_VERSION)) ∧
    (connection_accepts_header h = true ↔
      (h.magic = PROTOCOL_MAGIC ∧ h.version = PROTOCOL_VERSION ∧
        h.payload_size ≤ 10485760)) := by
  constructor
  · simp [MessageHeader.is_valid]
  · simp only [connection_accepts_header, payload_size_allowed, MessageHeader.is_valid,
      Bool.and_eq_true, beq_iff_eq]
    constructor
    · rintro ⟨⟨hm, hv⟩, hguard⟩
      refine ⟨hm, hv, ?_⟩
      by_cases hp : h.payload_size > 0
      · simp [hp] at hguard
        omega
      · omega
    · rintro ⟨hm, hv, hsz⟩
      refine ⟨⟨hm, hv⟩, ?_⟩
      by_cases hp : h.payload_size > 0
      · simp [hp]
        omega
      · simp [hp]

/-! ## Payload serialization (src/network/protocol.cpp, big-endian helpers)

C++ bytes are uint8_t, always < 256; the shift-or recomposition in the
readers therefore coincides with the positional sums used here. -/

def write_uint16 (v : Nat) : List Nat :=
  [(v >>> 8) % 256, v % 256]

def write_uint32 (v : Nat) : List Nat :=
  [(v >>> 24) % 256, (v >>> 16) % 256, (v >>> 8) % 256, v % 256]

def write_uint64 (v : Nat) : List Nat :=
  [(v >>> 56) % 256, (v >>> 48) % 256, (v >>> 40) % 256, (v >>> 32) % 256,
   (v >>> 24) % 256, (v >>> 16) % 256, (v >>> 8) % 256, v % 256]

/-- write_string: u32 length prefix (size truncated by static_cast to uint32)
followed by the raw bytes. -/
def write_string (s : List Nat) : List Nat :=
  write_uint32 (s.length % 2 ^ 32) ++ s

def read_uint16 : List Nat → Option (Nat × List Nat)
  | b0 :: b1 :: rest => some (b0 * 2 ^ 8 + b1, rest)
  | _ => none

def read_uint32 : List Nat → Option (Nat × List Nat)
  | b0 :: b1 :: b2 :: b3 :: rest =>
      some (b0 * 2 ^ 24 + b1 * 2 ^ 16 + b2 * 2 ^ 8 + b3, rest)
  | _ => none

def read_uint64 : List Nat → Option (Nat × List Nat)
  | b0 :: b1 :: b2 :: b3 :: b4 :: b5 :: b6 :: b7 :: rest =>
      some (b0 * 2 ^ 56 + b1 * 2 ^ 48 + b2 * 2 ^ 40 + b3 * 2 ^ 32 +
            b4 * 2 ^ 24 + b5 * 2 ^ 16 + b6 * 2 ^ 8 + b7, rest)
  | _ => none

def read_string (data : List Nat) : Option (List Nat × List Nat) := do
  let (len, rest) ← read_uint32 data
  if rest.length < len then none
  else some (rest.take len, rest.drop len)

theorem read_uint16_write (v : Nat) (rest : List Nat) :
    read_uint16 (write_uint16 v ++ rest) = some (v % 2 ^ 16, rest) := by
  simp only [write_uint16, read_uint16, Nat.shiftRight_eq_div_pow, List.cons_append,
    List.nil_append]
  congr 2
  omega

theorem read_uint32_write (v : Nat) (rest : List Nat) :
    read_uint32 (write_uint32 v ++ rest) = some (v % 2 ^ 32, rest) := by
  simp only [write_uint32, read_uint32, Nat.shiftRight_eq_div_pow, List.cons_append,
    List.nil_append]
  congr 2
  omega

theorem read_uint64_write (v : Nat) (rest : List Nat) :
    read_uint64 (write_uint64 v ++ rest) = some (v % 2 ^ 64, rest) := by
  simp only [write_uint64, read_uint64, Nat.shiftRight_eq_div_pow, List.cons_append,
    List.nil_append]
  congr 2
  omega

theorem read_string_write (s rest : List Nat) (hs : s.length < 2 ^ 32) :
    read_string (write_string s ++ rest) = some (s, rest) := by
  have hmod : s.length % 2 ^ 32 = s.length := Nat.mod_eq_of_lt hs
  simp only [write_string, List.append_assoc, read_string, read_uint32_write,
    Option.bind_eq_bind, Option.some_bind, hmod]
  rw [if_neg (by simp)]
  simp [List.take_left, List.drop_left]

/-- HandshakeMessage payload (protocol.hpp / protocol.cpp). String fields are
byte lists. -/
structure HandshakeMessage where
  peer_id : Nat
  listen_port : Nat
  peer_name : List Nat
  capabilities : Nat
deriving Repr, DecidableEq

def HandshakeMessage.serialize (m : HandshakeMessage) : List Nat :=
  write_uint32 m.peer_id ++ write_uint16 m.listen_port ++
    write_string m.peer_name ++ write_uint32 m.capabilities

def HandshakeMessage.deserialize (data : List Nat) : Option HandshakeMessage := do
  let (peer_id, d) ← read_uint32 data
  let (listen_port, d) ← read_uint16 d
  let (peer_name, d) ← read_string d
  let (capabilities, _) ← read_uint32 d
  some ⟨peer_id, listen_port, peer_name, capabilities⟩

/-- The C++ field types: peer_id, capabilities uint32; listen_port uint16;
peer_name a std::string addressable by a u32 length prefix. -/
def HandshakeMessage.wf (m : HandshakeMessage) : Prop :=
  m.peer_id < 2 ^ 32 ∧ m.listen_port < 2 ^ 16 ∧ m.peer_name.length < 2 ^ 32 ∧
    m.capabilities < 2 ^ 32

instance : DecidablePred HandshakeMessage.wf := by
  unfold HandshakeMessage.wf
  infer_instance

structure HeartbeatMessage where
  timestamp : Nat
  active_connections : Nat
  available_files : Nat
deriving Repr, DecidableEq

def HeartbeatMessage.serialize (m : HeartbeatMessage) : List Nat :=
  write_uint64 m.timestamp ++ write_uint32 m.active_connections ++
    write_uint32 m.available_files

def HeartbeatMessage.deserialize (data : List Nat) : Option HeartbeatMessage := do
  let (timestamp, d) ← read_uint64 data
  let (active_connections, d) ← read_uint32 d
  let (available_files, _) ← read_uint32 d
  some ⟨timestamp, active_connections, available_files⟩

def HeartbeatMessage.wf (m : HeartbeatMessage) : Prop :=
  m.timestamp < 2 ^ 64 ∧ m.active_connections < 2 ^ 32 ∧ m.available_files < 2 ^ 32

instance : DecidablePred HeartbeatMessage.wf := by
  unfold HeartbeatMessage.wf
  infer_instance

structure PeerAnnounceMessage where
  peer_id : Nat
  ip_address : List Nat
  port : Nat
  last_seen : Nat
deriving Repr, DecidableEq

def PeerAnnounceMessage.serialize (m : PeerAnnounceMessage) : List Nat :=
  write_uint32 m.peer_id ++ write_string m.ip_address ++ write_uint16 m.port ++
    write_uint64 m.last_seen

def PeerAnnounceMessage.deserialize (data : List Nat) : Option PeerAnnounceMessage := do
  let (peer_id, d) ← read_uint32 data
  let (ip_address, d) ← read_string d
  let (port, d) ← read_uint16 d
  let (last_seen, _) ← read_uint64 d
  some ⟨peer_id, ip_address, port, last_seen⟩

def PeerAnnounceMessage.wf (m : PeerAnnounceMessage) : Prop :=
  m.peer_id < 2 ^ 32 ∧ m.ip_address.length < 2 ^ 32 ∧ m.port < 2 ^ 16 ∧
    m.last_seen < 2 ^ 64

instance : DecidablePred PeerAnnounceMessage.wf := by
  unfold PeerAnnounceMessage.wf
  infer_instance

structure FileAnnounceMessage where
  file_id : List Nat
  filename : List Nat
  file_size : Nat
  file_hash : List Nat
  tags : List (List Nat)
deriving Repr, DecidableEq

/-- Length-prefixed tag sequence written by the serialization loop in
FileAnnounceMessage::serialize. -/
def write_strings (tags : List (List Nat)) : List Nat :=
  (tags.map write_string).flatten

def FileAnnounceMessage.serialize (m : FileAnnounceMessage) : List Nat :=
  write_string m.file_id ++ write_string m.filename ++ write_uint64 m.file_size ++
    write_string m.file_hash ++ write_uint32 (m.tags.length % 2 ^ 32) ++
    write_strings m.tags

/-- The tag-reading loop of FileAnnounceMessage::deserialize. -/
def read_strings : Nat → List Nat → Option (List (List Nat) × List Nat)
  | 0, d => some ([], d)
  | n + 1, d => do
    let (s, d) ← read_string d
    let (rest, d) ← read_strings n d
    some (s :: rest, d)

def FileAnnounceMessage.deserialize (data : List Nat) : Option FileAnnounceMessage := do
  let (file_id, d) ← read_string data
  let (filename, d) ← read_string d
  let (file_size, d) ← read_uint64 d
  let (file_hash, d) ← read_string d
  let (tag_count, d) ← read_uint32 d
  let (tags, _) ← read_strings tag_count d
  some ⟨file_id, filename, file_size, file_hash, tags⟩

def FileAnnounceMessage.wf (m : FileAnnounceMessage) : Prop :=
  m.file_id.length < 2 ^ 32 ∧ m.filename.length < 2 ^ 32 ∧ m.file_size < 2 ^ 64 ∧
    m.file_hash.length < 2 ^ 32 ∧ m.tags.length < 2 ^ 32 ∧
    ∀ t ∈ m.tags, t.length < 2 ^ 32

instance : DecidablePred FileAnnounceMessage.wf := by
  unfold FileAnnounceMessage.wf
  infer_instance

structure ChunkRequestMessage where
  file_id : List Nat
  chunk_index : Nat
  chunk_size : Nat
deriving Repr, DecidableEq

def ChunkRequestMessage.serialize (m : ChunkRequestMessage) : List Nat :=
  write_string m.file_id ++ write_uint64 m.chunk_index ++ write_uint32 m.chunk_size

def ChunkRequestMessage.deserialize (data : List Nat) : Option ChunkRequestMessage := do
  let (file_id, d) ← read_string data
  let (chunk_index, d) ← read_uint64 d
  let (chunk_size, _) ← read_uint32 d
  some ⟨file_id, chunk_index, chunk_size⟩

def ChunkRequestMessage.wf (m : ChunkRequestMessage) : Prop :=
  m.file_id.length < 2 ^ 32 ∧ m.chunk_index < 2 ^ 64 ∧ m.chunk_size < 2 ^ 32

instance : DecidablePred ChunkRequestMessage.wf := by
  unfold ChunkRequestMessage.wf
  infer_instance

structure ChunkDataMessage where
  file_id : List Nat
  chunk_index : Nat
  data : List Nat
  chunk_hash : List Nat
deriving Repr, DecidableEq

def ChunkDataMessage.serialize (m : ChunkDataMessage) : List Nat :=
  write_string m.file_id ++ write_uint64 m.chunk_index ++
    write_uint32 (m.data.length % 2 ^ 32) ++ m.data ++ write_string m.chunk_hash

def ChunkDataMessage.deserialize (data_span : List Nat) : Option ChunkDataMessage := do
  let (file_id, d) ← read_string data_span
  let (chunk_index, d) ← read_uint64 d
  let (data_size, d) ← read_uint32 d
  if d.length < data_size then none
  else do
    let chunk_hash_and_rest ← read_string (d.drop data_size)
    some ⟨file_id, chunk_index, d.take data_size, chunk_hash_and_rest.1⟩

def ChunkDataMessage.wf (m : ChunkDataMessage) : Prop :=
  m.file_id.length < 2 ^ 32 ∧ m.chunk_index < 2 ^ 64 ∧ m.data.length < 2 ^ 32 ∧
    m.chunk_hash.length < 2 ^ 32

instance : DecidablePred ChunkDataMessage.wf := by
  unfold ChunkDataMessage.wf
  infer_instance

structure ErrorMessage where
  error_code : Nat
  error_message : List Nat
  request_id : Nat
deriving Repr, DecidableEq

def ErrorMessage.serialize (m : ErrorMessage) : List Nat :=
  write_uint32 m.error_code ++ write_string m.error_message ++ write_uint64 m.request_id

def ErrorMessage.deserialize (data : List Nat) : Option ErrorMessage := do
  let (error_code, d) ← read_uint32 data
  let (error_message, d) ← read_string d
  let (request_id, _) ← read_uint64 d
  some ⟨error_code, error_message, request_id⟩

def ErrorMessage.wf (m : ErrorMessage) : Prop :=
  m.error_code < 2 ^ 32 ∧ m.error_message.length < 2 ^ 32 ∧ m.request_id < 2 ^ 64

instance : DecidablePred ErrorMessage.wf := by
  unfold ErrorMessage.wf
  infer_instance

theorem read_uint16_write_nil (v : Nat) :
    read_uint16 (write_uint16 v) = some (v % 2 ^ 16, []) := by
  simpa using read_uint16_write v []

theorem read_uint32_write_nil (v : Nat) :
    read_uint32 (write_uint32 v) = some (v % 2 ^ 32, []) := by
  simpa using read_uint32_write v []

theorem read_uint64_write_nil (v : Nat) :
    read_uint64 (write_uint64 v) = some (v % 2 ^ 64, []) := by
  simpa using read_uint64_write v []

theorem read_string_write_nil (s : List Nat) (hs : s.length < 2 ^ 32) :
    read_string (write_string s) = some (s, []) := by
  simpa using read_string_write s [] hs

theorem read_strings_write (tags : List (List Nat)) (rest : List Nat)
    (h : ∀ t ∈ tags, t.length < 2 ^ 32) :
    read_strings tags.length (write_strings tags ++ rest) = some (tags, rest) := by
  induction tags generalizing rest with
  | nil => simp [read_strings, write_strings]
  | cons t ts ih =>
      have ht : t.length < 2 ^ 32 := h t (List.mem_cons_self t ts)
      have hts : ∀ u ∈ ts, u.length < 2 ^ 32 := fun u hu => h u (List.mem_cons_of_mem t hu)
      simp only [write_strings, List.map_cons, List.flatten_cons, List.length_cons,
        read_strings, List.append_assoc, Option.bind_eq_bind]
      rw [read_string_write t _ ht]
      simp only [Option.some_bind]
      rw [show (ts.map write_string).flatten = write_strings ts from rfl, ih rest hts]
      simp

theorem read_strings_write_nil (tags : List (List Nat))
    (h : ∀ t ∈ tags, t.length < 2 ^ 32) :
    read_strings tags.length (write_strings tags) = some (tags, []) := by
  simpa using read_strings_write tags [] h

theorem handshake_roundtrip (m : HandshakeMessage) (h : m.wf) :
    HandshakeMessage.deserialize m.serialize = some m := by
  obtain ⟨peer_id, listen_port, peer_name, capabilities⟩ := m
  obtain ⟨h1, h2, h3, h4⟩ := h
  dsimp only at h1 h2 h3 h4
  simp [HandshakeMessage.serialize, HandshakeMessage.deserialize, List.append_assoc,
    read_uint32_write, read_uint16_write, read_string_write _ _ h3, read_uint32_write_nil]
  omega

theorem heartbeat_roundtrip (m : HeartbeatMessage) (h : m.wf) :
    HeartbeatMessage.deserialize m.serialize = some m := by
  obtain ⟨timestamp, active_connections, available_files⟩ := m
  obtain ⟨h1, h2, h3⟩ := h
  dsimp only at h1 h2 h3
  simp [HeartbeatMessage.serialize, HeartbeatMessage.deserialize, List.append_assoc,
    read_uint64_write, read_uint32_write, read_uint32_write_nil]
  omega

theorem peer_announce_roundtrip (m : PeerAnnounceMessage) (h : m.wf) :
    PeerAnnounceMessage.deserialize m.serialize = some m := by
  obtain ⟨peer_id, ip_address, port, last_seen⟩ := m
  obtain ⟨h1, h2, h3, h4⟩ := h
  dsimp only at h1 h2 h3 h4
  simp [PeerAnnounceMessage.serialize, PeerAnnounceMessage.deserialize, List.append_assoc,
    read_uint32_write, read_string_write _ _ h2, read_uint16_write, read_uint64_write_nil]
  omega

theorem file_announce_roundtrip (m : FileAnnounceMessage) (h : m.wf) :
    FileAnnounceMessage.deserialize m.serialize = some m := by
  obtain ⟨h1, h2, h3, h4, h5, h6⟩ := h
  simp only [FileAnnounceMessage.serialize, FileAnnounceMessage.deserialize,
    List.append_assoc, Option.bind_eq_bind]
  rw [read_string_write _ _ h1]
  simp only [Option.some_bind]
  rw [read_string_write _ _ h2]
  simp only [Option.some_bind]
  rw [read_uint64_write]
  simp only [Option.some_bind]
  rw [read_string_write _ _ h4]
  simp only [Option.some_bind]
  rw [read_uint32_write]
  simp only [Option.some_bind]
  rw [Nat.mod_mod_of_dvd _ (by norm_num : (2 : Nat) ^ 32 ∣ 2 ^ 32),
    Nat.mod_eq_of_lt h5, read_strings_write_nil m.tags h6]
  simp [Nat.mod_eq_of_lt h3]
  exact (FileAnnounceMessage.mk.injEq _ _ _ _ _ _ _ _ _ _).mpr
    ⟨rfl, rfl, Nat.mod_eq_of_lt h3, rfl, rfl⟩

theorem chunk_request_roundtrip (m : ChunkRequestMessage) (h : m.wf) :
    ChunkRequestMessage.deserialize m.serialize = some m := by
  obtain ⟨file_id, chunk_index, chunk_size⟩ := m
  obtain ⟨h1, h2, h3⟩ := h
  dsimp only at h1 h2 h3
  simp [ChunkRequestMessage.serialize, ChunkRequestMessage.deserialize, List.append_assoc,
    read_string_write _ _ h1, read_uint64_write, read_uint32_write_nil]
  omega

theorem chunk_data_roundtrip (m : ChunkDataMessage) (h : m.wf) :
    ChunkDataMessage.deserialize m.serialize = some m := by
  obtain ⟨file_id, chunk_index, data, chunk_hash⟩ := m
  obtain ⟨h1, h2, h3, h4⟩ := h
  dsimp only at h1 h2 h3 h4
  simp only [ChunkDataMessage.serialize, ChunkDataMessage.deserialize,
    List.append_assoc, Option.bind_eq_bind]
  rw [read_string_write _ _ h1]
  simp only [Option.some_bind]
  rw [read_uint64_write]
  simp only [Option.some_bind]
  rw [read_uint32_write]
  simp only [Option.some_bind]
  rw [Nat.mod_mod_of_dvd _ (by norm_num : (2 : Nat) ^ 32 ∣ 2 ^ 32),
    Nat.mod_eq_of_lt h3]
  rw [if_neg (by simp)]
  simp only [List.take_left, List.drop_left, Option.bind_eq_bind]
  rw [read_string_write_nil _ h4]
  simp
  omega

theorem error_message_roundtrip (m : ErrorMessage) (h : m.wf) :
    ErrorMessage.deserialize m.serialize = some m := by
  obtain ⟨error_code, error_message, request_id⟩ := m
  obtain ⟨h1, h2, h3⟩ := h
  dsimp only at h1 h2 h3
  simp [ErrorMessage.serialize, ErrorMessage.deserialize, List.append_assoc,
    read_uint32_write, read_string_write _ _ h2, read_uint64_write_nil]
  omega

/-- C4: deserialize ∘ serialize is the identity on every protocol payload type,
for every value representable with the C++ field types (fixed-width integer
fields in range, string and sequence lengths below 2^32). -/
theorem c4_payload_roundtrip :
    (∀ m : HandshakeMessage, m.wf → HandshakeMessage.deserialize m.serialize = some m) ∧
    (∀ m : HeartbeatMessage, m.wf → HeartbeatMessage.deserialize m.serialize = some m) ∧
    (∀ m : PeerAnnounceMessage, m.wf → PeerAnnounceMessage.deserialize m.serialize = some m) ∧
    (∀ m : FileAnnounceMessage, m.wf → FileAnnounceMessage.deserialize m.serialize = some m) ∧
    (∀ m : ChunkRequestMessage, m.wf → ChunkRequestMessage.deserialize m.serialize = some m) ∧
    (∀ m : ChunkDataMessage, m.wf → ChunkDataMessage.deserialize m.serialize = some m) ∧
    (∀ m : ErrorMessage, m.wf → ErrorMessage.deserialize m.serialize = some m) :=
  ⟨handshake_roundtrip, heartbeat_roundtrip, peer_announce_roundtrip,
    file_announce_roundtrip, chunk_request_roundtrip,
    chunk_data_roundtrip, error_message_roundtrip⟩

/-- A FileAnnounceMessage with an empty tags list, the boundary case named by
the claim. -/
def empty_tag_file_announce : FileAnnounceMessage :=
  { file_id := [100, 111, 99], filename := [102], file_size := 1024
    file_hash := [72], tags := [] }

/-- A ChunkDataMessage whose data field has length zero, the boundary case
named by the claim. -/
def zero_length_chunk_data : ChunkDataMessage :=
  { file_id := [100, 111, 99], chunk_index := 3, data := [], chunk_hash := [72, 72] }

/-- C4 witness: the round-trip theorem applied to the two boundary payloads
the claim singles out. -/
theorem c4_payload_roundtrip_witness :
    FileAnnounceMessage.deserialize empty_tag_file_announce.serialize =
        some empty_tag_file_announce ∧
      ChunkDataMessage.deserialize zero_length_chunk_data.serialize =
        some zero_length_chunk_data :=
  ⟨c4_payload_roundtrip.2.2.2.1 empty_tag_file_announce (by decide),
    c4_payload_roundtrip.2.2.2.2.2.1 zero_length_chunk_data (by decide)⟩

/-! ## AEAD nonce management (src/crypto/encryption.cpp)

The 12-byte ChaCha20 nonce is a byte list. The CSPRNG output used for the
upper 4 bytes (SecureRandom::generate_bytes) is external entropy and enters
as a parameter. -/

/-- nonce_to_uint64 (encryption.cpp lines 44-50): little-endian decode of the
low 8 bytes. C++ reads uint8 array cells with shift-or; missing cells (nonce
shorter than 8) contribute nothing, matching getD with default 0. -/
def nonce_to_uint64 (nonce : List Nat) : Nat :=
  (List.range 8).foldl (fun result i => result + nonce.getD i 0 % 256 * 2 ^ (8 * i)) 0

/-- uint64_to_nonce (encryption.cpp lines 52-63): low 8 bytes are the
little-endian encoding of value, the remaining 4 bytes are filled with the
CSPRNG output random_bytes. -/
def uint64_to_nonce (value : Nat) (random_bytes : List Nat) : List Nat :=
  (List.range 8).map (fun i => (value >>> (8 * i)) % 256) ++ random_bytes.take 4

/-- Per-peer replay-protection state (NonceManager::Impl::PeerNonceState). -/
structure PeerNonceState where
  highest_seen : Nat
  recent_nonces : Finset Nat
deriving DecidableEq

def initial_peer_nonce_state : PeerNonceState :=
  { highest_seen := 0, recent_nonces := ∅ }

/-- NonceManager state: per-peer map (unordered_map operator[]
default-constructs missing entries), the outgoing counter (starts at 1) and
the window size (default 1000). -/
structure NonceManager where
  peer_states : Nat → PeerNonceState
  outgoing_counter : Nat
  window_size : Nat

def NonceManager.initial : NonceManager :=
  { peer_states := fun _ => initial_peer_nonce_state
    outgoing_counter := 1
    window_size := 1000 }

/-- NonceManager::generate_outgoing_nonce (encryption.cpp lines 299-303):
encode the counter, post-increment it (uint64 wrap-around). -/
def NonceManager.generate_outgoing_nonce (m : NonceManager) (random_bytes : List Nat) :
    List Nat × NonceManager :=
  (uint64_to_nonce m.outgoing_counter random_bytes,
    { m with outgoing_counter := (m.outgoing_counter + 1) % 2 ^ 64 })

/-- The per-peer body of NonceManager::verify_incoming_nonce (encryption.cpp
lines 305-335) on the decoded 64-bit value: reject replays and too-old
values, otherwise insert, raise highest_seen, and prune strictly below the
cutoff (std::set iteration erases exactly the elements < cutoff). -/
def verify_nonce_value (window : Nat) (st : PeerNonceState) (v : Nat) :
    Bool × PeerNonceState :=
  if v ∈ st.recent_nonces then (false, st)
  else if v + window < st.highest_seen then (false, st)
  else
    let recent := insert v st.recent_nonces
    let highest := max st.highest_seen v
    let cutoff := if highest > window then highest - window else 0
    (true, { highest_seen := highest
             recent_nonces := recent.filter (fun x => ¬x < cutoff) })

def NonceManager.verify_incoming_nonce (m : NonceManager) (nonce : List Nat)
    (peer_id : Nat) : Bool × NonceManager :=
  let nonce_value := nonce_to_uint64 nonce
  let r := verify_nonce_value m.window_size (m.peer_states peer_id) nonce_value
  (r.1, { m with peer_states := fun p => if p = peer_id then r.2 else m.peer_states p })

/-- Run a sequence of verify_incoming_nonce calls; each call is a (nonce
bytes, peer id) pair. -/
def process_nonce_calls (m : NonceManager) (calls : List (List Nat × Nat)) :
    NonceManager :=
  calls.foldl (fun acc c => (acc.verify_incoming_nonce c.1 c.2).2) m

/-- Whether the decoded value v was accepted for peer_id at some point while
processing calls from manager state m. -/
def nonce_accepted_during (m : NonceManager) (calls : List (List Nat × Nat))
    (v : Nat) (peer_id : Nat) : Bool :=
  match calls with
  | [] => false
  | c :: rest =>
      let r := m.verify_incoming_nonce c.1 c.2
      (r.1 && c.2 == peer_id && nonce_to_uint64 c.1 == v) ||
        nonce_accepted_during r.2 rest v peer_id

/-- A value is spent for a peer state when it sits in the recent-nonce set or
is older than the sliding window. -/
def nonce_spent (window : Nat) (st : PeerNonceState) (v : Nat) : Prop :=
  v ∈ st.recent_nonces ∨ v + window < st.highest_seen

theorem verify_nonce_value_rejects_spent (window : Nat) (st : PeerNonceState) (v : Nat)
    (h : nonce_spent window st v) : (verify_nonce_value window st v).1 = false := by
  rcases h with h | h
  · simp [verify_nonce_value, h]
  · unfold verify_nonce_value
    by_cases hmem : v ∈ st.recent_nonces
    · simp [hmem]
    · simp [hmem, h]

theorem verify_nonce_value_preserves_spent (window : Nat) (st : PeerNonceState)
    (v w : Nat) (h : nonce_spent window st v) :
    nonce_spent window (verify_nonce_value window st w).2 v := by
  unfold verify_nonce_value
  by_cases hmem : w ∈ st.recent_nonces
  · simpa [hmem] using h
  · by_cases hold : w + window < st.highest_seen
    · simpa [hmem, hold] using h
    · simp only [hmem, hold, if_false, if_true]
      rcases h with h | h
      · by_cases hcut : v < (if max st.highest_seen w > window
            then max st.highest_seen w - window else 0)
        · right
          dsimp only [nonce_spent]
          by_cases hgt : max st.highest_seen w > window
          · simp only [hgt, if_true] at hcut
            omega
          · simp [hgt] at hcut
        · left
          simp only [nonce_spent, Finset.mem_filter, Finset.mem_insert]
          exact ⟨Or.inr h, hcut⟩
      · right
        dsimp only
        omega

theorem verify_nonce_value_spends (window : Nat) (st : PeerNonceState) (v : Nat)
    (h : (verify_nonce_value window st v).1 = true) :
    nonce_spent window (verify_nonce_value window st v).2 v := by
  unfold verify_nonce_value at h ⊢
  by_cases hmem : v ∈ st.recent_nonces
  · simp [hmem] at h
  · by_cases hold : v + window < st.highest_seen
    · simp [hmem, hold] at h
    · simp only [hmem, hold, if_false, if_true]
      by_cases hcut : v < (if max st.highest_seen v > window
          then max st.highest_seen v - window else 0)
      · right
        dsimp only
        by_cases hgt : max st.highest_seen v > window
        · simp only [hgt, if_true] at hcut
          omega
        · simp [hgt] at hcut
      · exact Or.inl (Finset.mem_filter.mpr ⟨Finset.mem_insert_self _ _, hcut⟩)

theorem verify_incoming_window_eq (m : NonceManager) (nonce : List Nat) (p : Nat) :
    (m.verify_incoming_nonce nonce p).2.window_size = m.window_size := rfl

theorem nonce_spent_after_verify (m : NonceManager) (nonce : List Nat) (p peer v : Nat)
    (h : nonce_spent m.window_size (m.peer_states peer) v) :
    nonce_spent m.window_size ((m.verify_incoming_nonce nonce p).2.peer_states peer) v := by
  unfold NonceManager.verify_incoming_nonce
  dsimp only
  by_cases hp : peer = p
  · subst hp
    simp only [if_pos rfl]
    exact verify_nonce_value_preserves_spent _ _ _ _ h
  · simp only [if_neg hp]
    exact h

theorem process_window_eq (m : NonceManager) (calls : List (List Nat × Nat)) :
    (process_nonce_calls m calls).window_size = m.window_size := by
  induction calls generalizing m with
  | nil => rfl
  | cons c rest ih => exact ih _

theorem nonce_spent_after_process (m : NonceManager) (calls : List (List Nat × Nat))
    (peer v : Nat) (h : nonce_spent m.window_size (m.peer_states peer) v) :
    nonce_spent m.window_size ((process_nonce_calls m calls).peer_states peer) v := by
  induction calls generalizing m with
  | nil => exact h
  | cons c rest ih =>
      exact ih ((m.verify_incoming_nonce c.1 c.2).2)
        (nonce_spent_after_verify m c.1 c.2 peer v h)

theorem nonce_accepted_spent (m : NonceManager) (calls : List (List Nat × Nat))
    (v peer : Nat) (h : nonce_accepted_during m calls v peer = true) :
    nonce_spent m.window_size ((process_nonce_calls m calls).peer_states peer) v := by
  induction calls generalizing m with
  | nil => simp [nonce_accepted_during] at h
  | cons c rest ih =>
      unfold nonce_accepted_during at h
      simp only [Bool.or_eq_true, Bool.and_eq_true, beq_iff_eq] at h
      rcases h with ⟨⟨hacc, hpeer⟩, hval⟩ | htail
      · subst hpeer
        subst hval
        have hsp : nonce_spent m.window_size
            (((m.verify_incoming_nonce c.1 c.2).2).peer_states c.2) (nonce_to_uint64 c.1) := by
          unfold NonceManager.verify_incoming_nonce at hacc ⊢
          dsimp only at hacc ⊢
          simp only [if_pos rfl]
          exact verify_nonce_value_spends _ _ _ hacc
        exact nonce_spent_after_process _ rest _ _ hsp
      · exact ih _ htail

/-- C2: replay protection of NonceManager::verify_incoming_nonce. For every
sequence of calls starting from a fresh manager (window 1000), a nonce value
accepted for a peer at any point is rejected when presented again for that
peer; moreover any value already in the recent-nonce set is rejected, and any
value below highest_seen minus the window is rejected. -/
theorem c2_replay_rejection :
    (∀ (calls : List (List Nat × Nat)) (nonce : List Nat) (peer : Nat),
      nonce_accepted_during NonceManager.initial calls (nonce_to_uint64 nonce) peer = true →
      ((process_nonce_calls NonceManager.initial calls).verify_incoming_nonce
        nonce peer).1 = false) ∧
    (∀ (m : NonceManager) (nonce : List Nat) (peer : Nat),
      nonce_to_uint64 nonce ∈ (m.peer_states peer).recent_nonces →
      (m.verify_incoming_nonce nonce peer).1 = false) ∧
    (∀ (m : NonceManager) (nonce : List Nat) (peer : Nat),
      nonce_to_uint64 nonce + m.window_size < (m.peer_states peer).highest_seen →
      (m.verify_incoming_nonce nonce peer).1 = false) := by
  refine ⟨?_, ?_, ?_⟩
  · intro calls nonce peer h
    have hsp := nonce_accepted_spent NonceManager.initial calls
      (nonce_to_uint64 nonce) peer h
    rw [← process_window_eq NonceManager.initial calls] at hsp
    unfold NonceManager.verify_incoming_nonce
    dsimp only
    exact verify_nonce_value_rejects_spent _ _ _ hsp
  · intro m nonce peer h
    exact verify_nonce_value_rejects_spent _ _ _ (Or.inl h)
  · intro m nonce peer h
    exact verify_nonce_value_rejects_spent _ _ _ (Or.inr h)

/-- C2 witness: the nonce with decoded value 5 is accepted once for peer 7 and
rejected on replay; a value in the recent set is rejected; a value 1000 below
highest_seen is rejected. -/
theorem c2_replay_rejection_witness :
    (nonce_accepted_during NonceManager.initial [([5], 7)] (nonce_to_uint64 [5]) 7 = true ∧
      ((process_nonce_calls NonceManager.initial [([5], 7)]).verify_incoming_nonce
        [5] 7).1 = false) ∧
    (nonce_to_uint64 [5] ∈
        ((process_nonce_calls NonceManager.initial [([5], 7)]).peer_states 7).recent_nonces ∧
      ((process_nonce_calls NonceManager.initial [([5], 7)]).verify_incoming_nonce
        [5] 7).1 = false) ∧
    (nonce_to_uint64 [42] + (process_nonce_calls NonceManager.initial
          [([220, 5], 7)]).window_size <
        ((process_nonce_calls NonceManager.initial
          [([220, 5], 7)]).peer_states 7).highest_seen ∧
      ((process_nonce_calls NonceManager.initial [([220, 5], 7)]).verify_incoming_nonce
        [42] 7).1 = false) := by
  have h1 : nonce_accepted_during NonceManager.initial [([5], 7)]
      (nonce_to_uint64 [5]) 7 = true := by decide
  have h2 : nonce_to_uint64 [5] ∈
      ((process_nonce_calls NonceManager.initial [([5], 7)]).peer_states 7).recent_nonces := by
    decide
  have h3 : nonce_to_uint64 [42] + (process_nonce_calls NonceManager.initial
        [([220, 5], 7)]).window_size <
      ((process_nonce_calls NonceManager.initial [([220, 5], 7)]).peer_states 7).highest_seen := by
    decide
  exact ⟨⟨h1, c2_replay_rejection.1 [([5], 7)] [5] 7 h1⟩,
    ⟨h2, c2_replay_rejection.2.1 _ [5] 7 h2⟩,
    ⟨h3, c2_replay_rejection.2.2 _ [42] 7 h3⟩⟩

/-- C3 counterexample: with CSPRNG output [1, 0, 0, 0] the first outgoing
nonce has byte 8 equal to 1, so the upper 4 bytes of the nonce are not zero:
they carry the random filler the code generates. -/
theorem c3_counterexample :
    (NonceManager.initial.generate_outgoing_nonce [1, 0, 0, 0]).1.getD 8 0 ≠ 0 := by
  decide

theorem uint64_to_nonce_decode (c : Nat) (r : List Nat) :
    nonce_to_uint64 (uint64_to_nonce c r) = c % 2 ^ 64 := by
  simp only [nonce_to_uint64, uint64_to_nonce, List.range_succ, List.range_zero,
    List.map_append, List.map_cons, List.map_nil, List.foldl_cons, List.foldl_nil,
    List.nil_append, List.cons_append, List.append_assoc, List.getD_cons_zero,
    List.getD_cons_succ, Nat.shiftRight_eq_div_pow]
  omega

/-- C3 (amended): every outgoing nonce carries the monotonically increasing
64-bit counter little-endian in its low 8 bytes (the LE decode returns the
counter), the upper 4 bytes are the CSPRNG filler bytes (not zero in
general), and consecutive nonces decode to consecutive counter values while
the counter has not wrapped. -/
theorem c3_nonce_structure :
    (∀ (m : NonceManager) (random_bytes : List Nat),
      nonce_to_uint64 (m.generate_outgoing_nonce random_bytes).1 =
          m.outgoing_counter % 2 ^ 64 ∧
        (m.generate_outgoing_nonce random_bytes).1.drop 8 = random_bytes.take 4 ∧
        (m.generate_outgoing_nonce random_bytes).2.outgoing_counter =
          (m.outgoing_counter + 1) % 2 ^ 64) ∧
    (∀ (m : NonceManager) (r1 r2 : List Nat), m.outgoing_counter + 1 < 2 ^ 64 →
      nonce_to_uint64 (((m.generate_outgoing_nonce r1).2).generate_outgoing_nonce r2).1 =
        nonce_to_uint64 (m.generate_outgoing_nonce r1).1 + 1) := by
  constructor
  · intro m random_bytes
    refine ⟨uint64_to_nonce_decode _ _, ?_, rfl⟩
    unfold NonceManager.generate_outgoing_nonce uint64_to_nonce
    dsimp only
    rw [List.drop_append_of_le_length (by simp)]
    simp
  · intro m r1 r2 h
    unfold NonceManager.generate_outgoing_nonce
    dsimp only
    rw [uint64_to_nonce_decode, uint64_to_nonce_decode]
    have h2 : m.outgoing_counter < 2 ^ 64 := by omega
    rw [Nat.mod_eq_of_lt h, Nat.mod_eq_of_lt h, Nat.mod_eq_of_lt h2]

/-- C3 witness: the structure theorem applied to the fresh manager (counter 1)
with concrete CSPRNG bytes. -/
theorem c3_nonce_structure_witness :
    NonceManager.initial.outgoing_counter + 1 < 2 ^ 64 ∧
      nonce_to_uint64 (((NonceManager.initial.generate_outgoing_nonce [9, 9, 9, 9]).2
          ).generate_outgoing_nonce [7, 7, 7, 7]).1 =
        nonce_to_uint64 (NonceManager.initial.generate_outgoing_nonce [9, 9, 9, 9]).1 + 1 :=
  ⟨by decide, c3_nonce_structure.2 NonceManager.initial [9, 9, 9, 9] [7, 7, 7, 7] (by decide)⟩

/-! ## Chunk store (src/storage/chunk_manager.cpp)

File contents are byte lists; the stream-reading loop of split_file consumes
chunk_size bytes at a time and keeps every non-empty read. BLAKE3 enters as
an abstract hash parameter producing the hex digest string. -/

/-- ChunkManager::split_file (chunk_manager.cpp lines 16-36) on the bytes of
the file: successive chunk_size-byte reads, only non-empty reads kept. -/
def split_file (chunk_size : Nat) (content : List Nat) : List (List Nat) :=
  if chunk_size = 0 then []
  else if content = [] then []
  else content.take chunk_size :: split_file chunk_size (content.drop chunk_size)
termination_by content.length
decreasing_by
  simp only [List.length_drop]
  rename_i hc hx
  have : 0 < content.length := List.length_pos.mpr hx
  omega

/-- ChunkManager::get_chunk_hashes: one digest per chunk. -/
def get_chunk_hashes (blake3_hex : List Nat → String) (chunk_size : Nat)
    (content : List Nat) : List String :=
  (split_file chunk_size content).map blake3_hex

/-- The FileMetadata fields populated by ChunkManager::chunk_file
(file_metadata.hpp); timestamps and descriptive fields omitted from claims
are kept as plain data. -/
structure FileMetadata where
  file_id : String
  file_hash : String
  filename : String
  file_path : String
  file_size : Nat
  chunk_hashes : List String
  chunk_size : Nat
  chunk_count : Nat
deriving Repr, DecidableEq

/-- ChunkManager::chunk_file (chunk_manager.cpp lines 49-96) on an existing
readable file given as its byte content: populate size, chunk hashes, count
(size_t cast to uint32), and the whole-file hash. -/
def chunk_file (blake3_hex : List Nat → String) (chunk_size : Nat)
    (file_path : String) (filename : String) (content : List Nat) : FileMetadata :=
  let chunk_hashes := get_chunk_hashes blake3_hex chunk_size content
  { file_id := ""
    file_hash := blake3_hex content
    filename := filename
    file_path := file_path
    file_size := content.length
    chunk_hashes := chunk_hashes
    chunk_size := chunk_size
    chunk_count := chunk_hashes.length % 2 ^ 32 }

theorem split_file_length_aux (chunk_size : Nat) (hc : 0 < chunk_size) :
    ∀ (n : Nat) (content : List Nat), content.length = n →
      (split_file chunk_size content).length =
        (content.length + chunk_size - 1) / chunk_size := by
  intro n
  induction n using Nat.strong_induction_on with
  | _ n ih =>
      intro content hn
      by_cases hx : content = []
      · subst hx
        rw [split_file]
        rw [if_neg (Nat.pos_iff_ne_zero.mp hc), if_pos rfl]
        simp only [List.length_nil, Nat.zero_add]
        rw [Nat.div_eq_of_lt (by omega)]
      · rw [split_file]
        simp only [if_neg (Nat.pos_iff_ne_zero.mp hc), if_neg hx, List.length_cons]
        have hpos : 0 < content.length := List.length_pos.mpr hx
        have hlt : (content.drop chunk_size).length < n := by
          simp only [List.length_drop]
          omega
        rw [ih _ hlt _ rfl]
        simp only [List.length_drop]
        by_cases hle : content.length ≤ chunk_size
        · rw [Nat.sub_eq_zero_of_le hle]
          rw [Nat.div_eq_of_lt (by omega)]
          rw [Nat.div_eq_sub_div hc (by omega), Nat.div_eq_of_lt (by omega)]
        · have : content.length - chunk_size + chunk_size - 1 =
              content.length - 1 := by omega
          rw [this]
          have h2 : content.length + chunk_size - 1 = (content.length - 1) + chunk_size := by
            omega
          rw [h2, Nat.add_div_right _ hc]

theorem split_file_length (chunk_size : Nat) (content : List Nat)
    (hc : 0 < chunk_size) :
    (split_file chunk_size content).length =
      (content.length + chunk_size - 1) / chunk_size :=
  split_file_length_aux chunk_size hc content.length content rfl

/-- C5: the metadata produced by chunk_file satisfies chunk_count =
ceil(file_size / chunk_size) and len(chunk_hashes) = chunk_count, for every
positive chunk size and every file small enough that the uint32 chunk_count
does not truncate. -/
theorem c5_chunk_count (blake3_hex : List Nat → String) (chunk_size : Nat)
    (file_path filename : String) (content : List Nat) (hc : 0 < chunk_size)
    (hsmall : (content.length + chunk_size - 1) / chunk_size < 2 ^ 32) :
    (chunk_file blake3_hex chunk_size file_path filename content).chunk_count =
        ((chunk_file blake3_hex chunk_size file_path filename content).file_size +
          chunk_size - 1) / chunk_size ∧
      (chunk_file blake3_hex chunk_size file_path filename content).chunk_hashes.length =
        (chunk_file blake3_hex chunk_size file_path filename content).chunk_count := by
  have hlen : (get_chunk_hashes blake3_hex chunk_size content).length =
      (content.length + chunk_size - 1) / chunk_size := by
    unfold get_chunk_hashes
    rw [List.length_map]
    exact split_file_length chunk_size content hc
  unfold chunk_file
  dsimp only
  rw [hlen]
  exact ⟨Nat.mod_eq_of_lt hsmall, (Nat.mod_eq_of_lt hsmall).symm⟩

/-- C5 witness: a file of size 0 yields chunk_count = 0, and a file of
exactly chunk_size bytes (here 4) yields chunk_count = 1; both instances of
the general theorem. -/
theorem c5_chunk_count_witness :
    ((0 : Nat) < 4 ∧ (([] : List Nat).length + 4 - 1) / 4 < 2 ^ 32 ∧
      (chunk_file (fun _ => "h") 4 "p" "f" []).chunk_count = 0 ∧
      (chunk_file (fun _ => "h") 4 "p" "f" []).chunk_hashes.length = 0) ∧
    (([9, 9, 9, 9] : List Nat).length + 4 - 1) / 4 < 2 ^ 32 ∧
      (chunk_file (fun _ => "h") 4 "p" "f" [9, 9, 9, 9]).chunk_count = 1 ∧
      (chunk_file (fun _ => "h") 4 "p" "f" [9, 9, 9, 9]).chunk_hashes.length = 1 := by
  have h0 := c5_chunk_count (fun _ => "h") 4 "p" "f" [] (by decide) (by decide)
  have h1 := c5_chunk_count (fun _ => "h") 4 "p" "f" [9, 9, 9, 9] (by decide) (by decide)
  refine ⟨⟨by decide, by decide, ?_, ?_⟩, by decide, ?_, ?_⟩
  · rw [h0.1]
    decide
  · rw [h0.2, h0.1]
    decide
  · rw [h1.1]
    decide
  · rw [h1.2, h1.1]
    decide

/-! ## Transfer session (src/transfer/transfer_session.cpp)

The two std::bitset<1024> members (transfer_session.hpp lines 66-67) are
modelled as Finsets of set indices together with the fixed size 1024:
std::bitset::test and std::bitset::set throw std::out_of_range for an index
at or beyond the size, modelled as Except.error, which propagates out of
handle_chunk_received exactly as the uncaught C++ exception does. The
per-chunk request timestamps do not influence any claim and are omitted.
BLAKE3 hex digests enter as an abstract hash parameter. -/

inductive TransferState where
  | INACTIVE
  | REQUESTING
  | TRANSFERRING
  | PAUSED
  | COMPLETED
  | FAILED
  | CANCELLED
deriving Repr, DecidableEq

inductive CryptoError where
  | SUCCESS
  | INVALID_KEY
  | INVALID_SIGNATURE
  | ENCRYPTION_FAILED
  | DECRYPTION_FAILED
  | KEY_GENERATION_FAILED
  | INVALID_NONCE
  | BUFFER_TOO_SMALL
  | VERIFICATION_FAILED
  | RANDOM_GENERATION_FAILED
  | INVALID_STATE
  | FILE_NOT_FOUND
  | FILE_READ_ERROR
  | FILE_WRITE_ERROR
deriving Repr, DecidableEq

structure CryptoResult where
  error : CryptoError
  message : String
deriving Repr, DecidableEq

structure TransferSession where
  session_id : String
  file_id : String
  peer_id : Nat
  state : TransferState
  metadata : FileMetadata
  requested_chunks : Finset Nat
  received_chunks : Finset Nat
  next_chunk_to_request : Nat
  bytes_transferred : Nat
deriving DecidableEq

/-- TransferSession::start_transfer (transfer_session.cpp lines 20-33): store
the metadata, enter REQUESTING, reset all tracking state. -/
def TransferSession.start_transfer (s : TransferSession) (metadata : FileMetadata) :
    TransferSession :=
  { s with
    metadata := metadata
    state := TransferState.REQUESTING
    requested_chunks := ∅
    received_chunks := ∅
    next_chunk_to_request := 0
    bytes_transferred := 0 }

/-- TransferSession::is_complete (lines 39-42). -/
def TransferSession.is_complete (s : TransferSession) : Bool :=
  s.state == TransferState.COMPLETED ||
    s.received_chunks.card == s.metadata.chunk_count

/-- TransferSession::get_progress_percentage (lines 44-48); the double
arithmetic is modelled as an exact rational. -/
def TransferSession.get_progress_percentage (s : TransferSession) : ℚ :=
  if s.metadata.chunk_count = 0 then 0
  else ((s.received_chunks.card : ℚ) / (s.metadata.chunk_count : ℚ)) * 100

/-- The fixed size of the requested/received chunk bitsets
(std::bitset<1024>, transfer_session.hpp lines 66-67). -/
def BITSET_SIZE : Nat := 1024

/-- std::bitset<1024>::test: throws std::out_of_range at or beyond the fixed
size. -/
def bitset_test (bits : Finset Nat) (i : Nat) : Except String Bool :=
  if i < BITSET_SIZE then Except.ok (decide (i ∈ bits))
  else Except.error "std::out_of_range"

/-- std::bitset<1024>::set: throws std::out_of_range at or beyond the fixed
size. -/
def bitset_set (bits : Finset Nat) (i : Nat) : Except String (Finset Nat) :=
  if i < BITSET_SIZE then Except.ok (insert i bits)
  else Except.error "std::out_of_range"

/-- TransferSession::is_chunk_requested (lines 146-148): the C++ && short
circuits, so test (which can throw) only runs when the index check passes. -/
def TransferSession.is_chunk_requested (s : TransferSession) (chunk_index : Nat) :
    Except String Bool :=
  if chunk_index < s.metadata.chunk_count then
    bitset_test s.requested_chunks chunk_index
  else
    Except.ok false

/-- TransferSession::validate_chunk (lines 193-205): compare the digest only
when a non-empty stored hash exists for the index. -/
def TransferSession.validate_chunk (blake3_hex : List Nat → String)
    (s : TransferSession) (chunk_index : Nat) (chunk_data : List Nat) : Bool :=
  if chunk_index < s.metadata.chunk_hashes.length ∧
      s.metadata.chunk_hashes.getD chunk_index "" ≠ "" then
    blake3_hex chunk_data == s.metadata.chunk_hashes.getD chunk_index ""
  else
    true

/-- TransferSession::handle_chunk_received (lines 89-144). Every rejection
returns the typed error together with the unchanged session; a bitset access
at an index at or beyond 1024 escapes as the std::out_of_range exception
(Except.error). -/
def TransferSession.handle_chunk_received (blake3_hex : List Nat → String)
    (s : TransferSession) (chunk_index : Nat) (chunk_data : List Nat) :
    Except String (CryptoResult × TransferSession) :=
  if chunk_index ≥ s.metadata.chunk_count then
    Except.ok (⟨CryptoError.INVALID_STATE, "Chunk index out of range"⟩, s)
  else
    match s.is_chunk_requested chunk_index with
    | Except.error e => Except.error e
    | Except.ok requested =>
      if !requested then
        Except.ok (⟨CryptoError.INVALID_STATE, "Chunk was not requested"⟩, s)
      else
        let expected_size :=
          if chunk_index = s.metadata.chunk_count - 1 ∧
              s.metadata.file_size % s.metadata.chunk_size ≠ 0 then
            s.metadata.file_size % s.metadata.chunk_size
          else
            s.metadata.chunk_size
        if chunk_data.length ≠ expected_size then
          Except.ok (⟨CryptoError.INVALID_STATE, "Chunk size mismatch"⟩, s)
        else if ¬s.validate_chunk blake3_hex chunk_index chunk_data then
          Except.ok (⟨CryptoError.VERIFICATION_FAILED, "Chunk hash verification failed"⟩, s)
        else
          match bitset_set s.received_chunks chunk_index with
          | Except.error e => Except.error e
          | Except.ok received =>
            Except.ok (⟨CryptoError.SUCCESS, ""⟩,
              { s with
                received_chunks := received
                bytes_transferred := s.bytes_transferred + chunk_data.length
                state := if received.card = s.metadata.chunk_count then
                    TransferState.COMPLETED
                  else s.state })

/-- A session whose file has more chunks than the fixed 1024-bit tracking
bitsets can address: 2000 chunks of 64 KiB. -/
def big_session : TransferSession :=
  { session_id := "s"
    file_id := "f"
    peer_id := 1
    state := TransferState.TRANSFERRING
    metadata :=
      { file_id := "f", file_hash := "H", filename := "f", file_path := "p"
        file_size := 131072000, chunk_hashes := [], chunk_size := 65536
        chunk_count := 2000 }
    requested_chunks := ∅
    received_chunks := ∅
    next_chunk_to_request := 0
    bytes_transferred := 0 }

/-- C6 counterexample: on a 2000-chunk session, handle_chunk_received with
the in-range index 1500 reaches std::bitset<1024>::test beyond the bitset
size and the std::out_of_range exception escapes, instead of the typed
"Chunk was not requested" rejection the claim asserts for an unrequested
chunk. -/
theorem c6_counterexample :
    TransferSession.handle_chunk_received (fun _ => "zz") big_session 1500 [] =
        Except.error "std::out_of_range" ∧
      TransferSession.handle_chunk_received (fun _ => "zz") big_session 1500 [] ≠
        Except.ok (⟨CryptoError.INVALID_STATE, "Chunk was not requested"⟩,
          big_session) := by
  have h1 : TransferSession.handle_chunk_received (fun _ => "zz") big_session 1500 [] =
      Except.error "std::out_of_range" := rfl
  refine ⟨h1, ?_⟩
  rw [h1]
  simp

/-- C6 (amended): for every session whose chunk_count is within the fixed
1024-bit bitset size, handle_chunk_received rejects with a typed error and
leaves the session (received set, bytes, state) unchanged in each of the
four failure cases: index out of range, chunk not requested, size mismatch
against chunk_size or the last-chunk remainder, and stored-hash mismatch;
beyond 1024 chunks the bitset access throws std::out_of_range instead. -/
theorem c6_chunk_rejection (blake3_hex : List Nat → String) (s : TransferSession)
    (chunk_index : Nat) (chunk_data : List Nat)
    (hbound : s.metadata.chunk_count ≤ BITSET_SIZE) :
    (chunk_index ≥ s.metadata.chunk_count →
      s.handle_chunk_received blake3_hex chunk_index chunk_data =
        Except.ok (⟨CryptoError.INVALID_STATE, "Chunk index out of range"⟩, s)) ∧
    (chunk_index < s.metadata.chunk_count → chunk_index ∉ s.requested_chunks →
      s.handle_chunk_received blake3_hex chunk_index chunk_data =
        Except.ok (⟨CryptoError.INVALID_STATE, "Chunk was not requested"⟩, s)) ∧
    (chunk_index < s.metadata.chunk_count → chunk_index ∈ s.requested_chunks →
      chunk_data.length ≠
        (if chunk_index = s.metadata.chunk_count - 1 ∧
            s.metadata.file_size % s.metadata.chunk_size ≠ 0 then
          s.metadata.file_size % s.metadata.chunk_size
        else s.metadata.chunk_size) →
      s.handle_chunk_received blake3_hex chunk_index chunk_data =
        Except.ok (⟨CryptoError.INVALID_STATE, "Chunk size mismatch"⟩, s)) ∧
    (chunk_index < s.metadata.chunk_count → chunk_index ∈ s.requested_chunks →
      chunk_data.length =
        (if chunk_index = s.metadata.chunk_count - 1 ∧
            s.metadata.file_size % s.metadata.chunk_size ≠ 0 then
          s.metadata.file_size % s.metadata.chunk_size
        else s.metadata.chunk_size) →
      chunk_index < s.metadata.chunk_hashes.length →
      s.metadata.chunk_hashes.getD chunk_index "" ≠ "" →
      blake3_hex chunk_data ≠ s.metadata.chunk_hashes.getD chunk_index "" →
      s.handle_chunk_received blake3_hex chunk_index chunk_data =
        Except.ok (⟨CryptoError.VERIFICATION_FAILED,
          "Chunk hash verification failed"⟩, s)) := by
  refine ⟨?_, ?_, ?_, ?_⟩
  · intro hge
    unfold TransferSession.handle_chunk_received
    rw [if_pos hge]
  · intro hlt hreq
    unfold TransferSession.handle_chunk_received
    rw [if_neg (by omega)]
    unfold TransferSession.is_chunk_requested bitset_test
    rw [if_pos hlt, if_pos (by simp only [BITSET_SIZE] at hbound ⊢; omega)]
    rw [decide_eq_false hreq]
    simp
  · intro hlt hreq hsz
    unfold TransferSession.handle_chunk_received
    rw [if_neg (by omega)]
    unfold TransferSession.is_chunk_requested bitset_test
    rw [if_pos hlt, if_pos (by simp only [BITSET_SIZE] at hbound ⊢; omega)]
    rw [decide_eq_true hreq]
    dsimp only
    rw [if_neg (by simp)]
    rw [if_pos hsz]
  · intro hlt hreq hsz hhlt hne hmis
    unfold TransferSession.handle_chunk_received
    rw [if_neg (by omega)]
    unfold TransferSession.is_chunk_requested bitset_test
    rw [if_pos hlt, if_pos (by simp only [BITSET_SIZE] at hbound ⊢; omega)]
    rw [decide_eq_true hreq]
    dsimp only
    rw [if_neg (by simp)]
    rw [if_neg (by simpa using hsz)]
    rw [if_pos]
    simp only [TransferSession.validate_chunk]
    rw [if_pos ⟨hhlt, hne⟩]
    simp only [beq_iff_eq, List.getD]
    exact hmis

/-- A concrete session used by the rejection witness: one requested chunk
(index 0) of a 2-chunk file with chunk size 4 and file size 6. -/
def sample_session : TransferSession :=
  { session_id := "s"
    file_id := "f"
    peer_id := 1
    state := TransferState.TRANSFERRING
    metadata :=
      { file_id := "f", file_hash := "H", filename := "f", file_path := "p"
        file_size := 6, chunk_hashes := ["aa", "bb"], chunk_size := 4, chunk_count := 2 }
    requested_chunks := {0}
    received_chunks := ∅
    next_chunk_to_request := 1
    bytes_transferred := 0 }

/-- C6 witness: each of the four rejections exercised on sample_session (2
chunks, within the bitset size; bad index 5; unrequested index 1; requested
index 0 with 3 bytes instead of 4; requested index 0 with 4 bytes whose
digest "zz" differs from stored "aa"). -/
theorem c6_chunk_rejection_witness :
    (sample_session.metadata.chunk_count ≤ BITSET_SIZE ∧
      (5 : Nat) ≥ sample_session.metadata.chunk_count ∧
      sample_session.handle_chunk_received (fun _ => "zz") 5 [1, 2, 3, 4] =
        Except.ok (⟨CryptoError.INVALID_STATE, "Chunk index out of range"⟩,
          sample_session)) ∧
    (sample_session.handle_chunk_received (fun _ => "zz") 1 [1, 2] =
      Except.ok (⟨CryptoError.INVALID_STATE, "Chunk was not requested"⟩,
        sample_session)) ∧
    (sample_session.handle_chunk_received (fun _ => "zz") 0 [1, 2, 3] =
      Except.ok (⟨CryptoError.INVALID_STATE, "Chunk size mismatch"⟩,
        sample_session)) ∧
    (sample_session.handle_chunk_received (fun _ => "zz") 0 [1, 2, 3, 4] =
      Except.ok (⟨CryptoError.VERIFICATION_FAILED, "Chunk hash verification failed"⟩,
        sample_session)) := by
  refine ⟨⟨by decide, by decide, ?_⟩, ?_, ?_, ?_⟩
  · exact (c6_chunk_rejection (fun _ => "zz") sample_session 5 [1, 2, 3, 4]
      (by decide)).1 (by decide)
  · exact (c6_chunk_rejection (fun _ => "zz") sample_session 1 [1, 2]
      (by decide)).2.1 (by decide) (by decide)
  · exact (c6_chunk_rejection (fun _ => "zz") sample_session 0 [1, 2, 3]
      (by decide)).2.2.1 (by decide) (by decide) (by decide)
  · exact (c6_chunk_rejection (fun _ => "zz") sample_session 0 [1, 2, 3, 4]
      (by decide)).2.2.2 (by decide) (by decide) (by decide) (by decide)
      (by decide) (by decide)

/-- C10: after start_transfer with chunk_count = 0 metadata, the session is
immediately complete, reports 0 progress, and rejects every chunk index with
the typed out-of-range error (the first guard fires before any bitset
access). -/
theorem c10_empty_file_session (blake3_hex : List Nat → String)
    (s : TransferSession) (metadata : FileMetadata)
    (hzero : metadata.chunk_count = 0) :
    (s.start_transfer metadata).is_complete = true ∧
    (s.start_transfer metadata).get_progress_percentage = 0 ∧
    ∀ (chunk_index : Nat) (chunk_data : List Nat),
      (s.start_transfer metadata).handle_chunk_received blake3_hex chunk_index chunk_data =
        Except.ok (⟨CryptoError.INVALID_STATE, "Chunk index out of range"⟩,
          s.start_transfer metadata) := by
  refine ⟨?_, ?_, ?_⟩
  · simp [TransferSession.is_complete, TransferSession.start_transfer, hzero]
  · simp [TransferSession.get_progress_percentage, TransferSession.start_transfer, hzero]
  · intro chunk_index chunk_data
    have hge : chunk_index ≥ (s.start_transfer metadata).metadata.chunk_count := by
      simp [TransferSession.start_transfer, hzero]
    unfold TransferSession.handle_chunk_received
    rw [if_pos hge]

/-- Metadata of an empty file (0 chunks) for the C10 witness. -/
def empty_file_metadata : FileMetadata :=
  { file_id := "e", file_hash := "E", filename := "e", file_path := "p"
    file_size := 0, chunk_hashes := [], chunk_size := 4, chunk_count := 0 }

/-- C10 witness: the empty-file theorem instantiated at sample_session and the
empty metadata, with the chunk rejection evaluated at index 0. -/
theorem c10_empty_file_session_witness :
    empty_file_metadata.chunk_count = 0 ∧
    (sample_session.start_transfer empty_file_metadata).is_complete = true ∧
    (sample_session.start_transfer empty_file_metadata).get_progress_percentage = 0 ∧
    (sample_session.start_transfer empty_file_metadata).handle_chunk_received
        (fun _ => "zz") 0 [] =
      Except.ok (⟨CryptoError.INVALID_STATE, "Chunk index out of range"⟩,
        sample_session.start_transfer empty_file_metadata) := by
  have h := c10_empty_file_session (fun _ => "zz") sample_session empty_file_metadata rfl
  exact ⟨rfl, h.1, h.2.1, h.2.2 0 []⟩

/-! ## Peer router (src/network/peer_router.cpp)

The three unordered_maps keyed by peer id are association lists with
replace-on-insert semantics; doubles (metric, reliability) are exact
rationals; timestamps do not influence any claim and are omitted. -/

def MAX_HOP_COUNT : Nat := 16

def MAX_ROUTING_ENTRIES : Nat := 10000

structure RoutingPeerInfo where
  peer_id : Nat
  ip_address : String
  port : Nat
  hop_count : Nat
  next_hop_peer_id : Nat
  reliability_score : ℚ
  bandwidth_estimate : Nat
deriving Repr, DecidableEq

structure RouteEntry where
  destination_peer_id : Nat
  next_hop_peer_id : Nat
  hop_count : Nat
  metric : ℚ
deriving Repr, DecidableEq

structure RouteUpdateMessage where
  source_peer_id : Nat
  peer_updates : List RoutingPeerInfo
  sequence_number : Nat
  hop_count : Nat
deriving Repr, DecidableEq

/-- unordered_map lookup. -/
def alist_lookup {α : Type} (k : Nat) : List (Nat × α) → Option α
  | [] => none
  | (k2, v) :: t => if k2 = k then some v else alist_lookup k t

/-- unordered_map operator[] assignment: replace the entry if the key exists,
otherwise append. -/
def alist_insert {α : Type} (k : Nat) (v : α) : List (Nat × α) → List (Nat × α)
  | [] => [(k, v)]
  | (k2, v2) :: t => if k2 = k then (k, v) :: t else (k2, v2) :: alist_insert k v t

structure PeerRouter where
  local_peer_id : Nat
  known_peers : List (Nat × RoutingPeerInfo)
  routing_table : List (Nat × RouteEntry)
deriving Repr, DecidableEq

def PeerRouter.initial (local_peer_id : Nat) : PeerRouter :=
  { local_peer_id := local_peer_id, known_peers := [], routing_table := [] }

/-- PeerRouter::calculate_route_metric (peer_router.cpp lines 1000-1012),
as exact rational arithmetic: hop count 20%, unreliability 40%, inverse
bandwidth 40% (normalized by 1 MB/s, floor 1000). -/
def calculate_route_metric (peer : RoutingPeerInfo) : ℚ :=
  (peer.hop_count : ℚ) * (2 / 10) +
    (1 - peer.reliability_score) * (4 / 10) +
    (1000000 / (max 1000 peer.bandwidth_estimate : Nat) : ℚ) * (4 / 10)

/-- PeerRouter::add_direct_peer (peer_router.cpp lines 338-373): hop 1,
next hop the peer itself, reliability 1.0, default bandwidth 1 MB/s. -/
def PeerRouter.add_direct_peer (r : PeerRouter) (peer_id : Nat) (ip : String)
    (port : Nat) : PeerRouter :=
  let peer_info : RoutingPeerInfo :=
    { peer_id := peer_id, ip_address := ip, port := port, hop_count := 1
      next_hop_peer_id := peer_id, reliability_score := 1, bandwidth_estimate := 1000000 }
  let route : RouteEntry :=
    { destination_peer_id := peer_id, next_hop_peer_id := peer_id, hop_count := 1
      metric := calculate_route_metric peer_info }
  { r with
    known_peers := alist_insert peer_id peer_info r.known_peers
    routing_table := alist_insert peer_id route r.routing_table }

/-- The body of the peer_updates loop in PeerRouter::handle_route_update
(peer_router.cpp lines 601-649) for one advertised peer. new_hop_count is
uint8 arithmetic, hence the mod 256. -/
def process_peer_update (r : PeerRouter) (source_peer_id : Nat)
    (peer_update : RoutingPeerInfo) : PeerRouter :=
  if peer_update.peer_id = r.local_peer_id then r
  else
    let new_hop_count := (peer_update.hop_count + 1) % 256
    if new_hop_count ≥ MAX_HOP_COUNT then r
    else
      let should_update :=
        match alist_lookup peer_update.peer_id r.known_peers with
        | none => true
        | some _ =>
          match alist_lookup peer_update.peer_id r.routing_table with
          | none => false
          | some existing_route =>
            let new_metric := calculate_route_metric peer_update
            decide (new_hop_count < existing_route.hop_count ∨
              (new_hop_count = existing_route.hop_count ∧
                new_metric < existing_route.metric))
      if should_update = true ∧ r.routing_table.length < MAX_ROUTING_ENTRIES then
        let new_peer := { peer_update with
          hop_count := new_hop_count
          next_hop_peer_id := source_peer_id }
        let route : RouteEntry :=
          { destination_peer_id := peer_update.peer_id
            next_hop_peer_id := source_peer_id
            hop_count := new_hop_count
            metric := calculate_route_metric new_peer }
        { r with
          known_peers := alist_insert peer_update.peer_id new_peer r.known_peers
          routing_table := alist_insert peer_update.peer_id route r.routing_table }
      else r

/-- PeerRouter::handle_route_update (peer_router.cpp lines 584-665): drop own
updates, drop messages at the hop-count limit, then process each advertised
peer in order. -/
def PeerRouter.handle_route_update (r : PeerRouter) (message : RouteUpdateMessage) :
    PeerRouter :=
  if message.source_peer_id = r.local_peer_id then r
  else if message.hop_count ≥ MAX_HOP_COUNT then r
  else message.peer_updates.foldl
    (fun acc peer_update => process_peer_update acc message.source_peer_id peer_update) r

theorem alist_lookup_insert_self {α : Type} (k : Nat) (v : α) (l : List (Nat × α)) :
    alist_lookup k (alist_insert k v l) = some v := by
  induction l with
  | nil => simp [alist_insert, alist_lookup]
  | cons p t ih =>
      by_cases hp : p.1 = k
      · simp [alist_insert, alist_lookup, hp]
      · obtain ⟨k2, v2⟩ := p
        simp only [alist_insert]
        rw [if_neg hp]
        simp only [alist_lookup]
        rw [if_neg hp]
        exact ih

/-- The single advertised peer (peer 3 at per-entry hop count 15) whose
update the C7 claim predicts would be installed. -/
def c7_peer_update : RoutingPeerInfo :=
  { peer_id := 3, ip_address := "", port := 0, hop_count := 15
    next_hop_peer_id := 3, reliability_score := 1, bandwidth_estimate := 1000000 }

/-- C7 counterexample: an advertised peer with h = 15 gives h+1 = 16, which
does not exceed MAX_HOP_COUNT = 16; the peer is unknown, yet the entry is
discarded (the routing table stays empty), because the code drops entries
with new hop count >= 16, not only > 16. -/
theorem c7_counterexample :
    ¬(15 + 1 > MAX_HOP_COUNT) ∧
    alist_lookup 3 (PeerRouter.initial 1).known_peers = none ∧
    alist_lookup 3 ((PeerRouter.initial 1).handle_route_update
      { source_peer_id := 2, peer_updates := [c7_peer_update],
        sequence_number := 0, hop_count := 0 }).routing_table = none := by
  refine ⟨by decide, rfl, ?_⟩
  rfl

/-- C7 (amended): handle_route_update drops the whole message when its
hop_count >= 16; for each advertised peer with per-entry hop count h it
computes new hop count (h+1) mod 256 (uint8 arithmetic), discards the entry
when that value >= MAX_HOP_COUNT (16) — so h = 15 is already discarded —
and otherwise, while the routing table is below its 10000-entry cap,
installs or replaces the route exactly when (a) the peer is unknown, or the
peer has a routing-table entry and (b) the new hop count is lower, or (c)
hop counts are equal and the new metric is smaller; the installed route has
the update's source_peer_id as next hop. -/
theorem c7_route_update_rules (r : PeerRouter) (message : RouteUpdateMessage)
    (source_peer_id : Nat) (peer_update : RoutingPeerInfo) :
    (message.hop_count ≥ MAX_HOP_COUNT → r.handle_route_update message = r) ∧
    (peer_update.peer_id = r.local_peer_id →
      process_peer_update r source_peer_id peer_update = r) ∧
    (peer_update.peer_id ≠ r.local_peer_id →
      (peer_update.hop_count + 1) % 256 ≥ MAX_HOP_COUNT →
      process_peer_update r source_peer_id peer_update = r) ∧
    (peer_update.peer_id ≠ r.local_peer_id →
      (peer_update.hop_count + 1) % 256 < MAX_HOP_COUNT →
      r.routing_table.length < MAX_ROUTING_ENTRIES →
      ((alist_lookup peer_update.peer_id r.known_peers = none ∨
          (∃ existing_route,
            alist_lookup peer_update.peer_id r.routing_table = some existing_route ∧
            ((peer_update.hop_count + 1) % 256 < existing_route.hop_count ∨
              ((peer_update.hop_count + 1) % 256 = existing_route.hop_count ∧
                calculate_route_metric peer_update < existing_route.metric)))) →
        alist_lookup peer_update.peer_id
            (process_peer_update r source_peer_id peer_update).routing_table =
          some { destination_peer_id := peer_update.peer_id
                 next_hop_peer_id := source_peer_id
                 hop_count := (peer_update.hop_count + 1) % 256
                 metric := calculate_route_metric
                   { peer_update with
                     hop_count := (peer_update.hop_count + 1) % 256
                     next_hop_peer_id := source_peer_id } }) ∧
      (¬(alist_lookup peer_update.peer_id r.known_peers = none ∨
          (∃ existing_route,
            alist_lookup peer_update.peer_id r.routing_table = some existing_route ∧
            ((peer_update.hop_count + 1) % 256 < existing_route.hop_count ∨
              ((peer_update.hop_count + 1) % 256 = existing_route.hop_count ∧
                calculate_route_metric peer_update < existing_route.metric)))) →
        process_peer_update r source_peer_id peer_update = r)) := by
  refine ⟨?_, ?_, ?_, ?_⟩
  · intro hbig
    unfold PeerRouter.handle_route_update
    by_cases hs : message.source_peer_id = r.local_peer_id
    · rw [if_pos hs]
    · rw [if_neg hs, if_pos hbig]
  · intro hself
    unfold process_peer_update
    rw [if_pos hself]
  · intro hne hbig
    unfold process_peer_update
    rw [if_neg hne]
    dsimp only
    rw [if_pos hbig]
  · intro hne hsmall hlen
    constructor
    · intro hcond
      unfold process_peer_update
      rw [if_neg hne]
      dsimp only
      rw [if_neg (by omega)]
      rcases hk : alist_lookup peer_update.peer_id r.known_peers with _ | pi
      · dsimp only
        rw [if_pos ⟨rfl, hlen⟩]
        dsimp only
        exact alist_lookup_insert_self _ _ _
      · rcases hr : alist_lookup peer_update.peer_id r.routing_table with _ | e
        · exfalso
          rcases hcond with hnone | ⟨e, he, _⟩
          · rw [hk] at hnone
            exact Option.noConfusion hnone
          · rw [hr] at he
            exact Option.noConfusion he
        · dsimp only
          have hcrit : (peer_update.hop_count + 1) % 256 < e.hop_count ∨
              ((peer_update.hop_count + 1) % 256 = e.hop_count ∧
                calculate_route_metric peer_update < e.metric) := by
            rcases hcond with hnone | ⟨e2, he2, hc2⟩
            · rw [hk] at hnone
              exact absurd hnone (Option.noConfusion)
            · rw [hr] at he2
              injection he2 with he2
              rw [he2]
              exact hc2
          rw [if_pos ⟨by simpa using hcrit, hlen⟩]
          dsimp only
          exact alist_lookup_insert_self _ _ _
    · intro hncond
      unfold process_peer_update
      rw [if_neg hne]
      dsimp only
      rw [if_neg (by omega)]
      rcases hk : alist_lookup peer_update.peer_id r.known_peers with _ | pi
      · exact absurd (Or.inl hk) hncond
      · rcases hr : alist_lookup peer_update.peer_id r.routing_table with _ | e
        · dsimp only
          rw [if_neg (by simp)]
        · dsimp only
          rw [if_neg]
          intro hcontra
          rcases hcontra with ⟨hsu, _⟩
          have : (peer_update.hop_count + 1) % 256 < e.hop_count ∨
              ((peer_update.hop_count + 1) % 256 = e.hop_count ∧
                calculate_route_metric peer_update < e.metric) := by
            simpa using hsu
          exact hncond (Or.inr ⟨e, hr, this⟩)

/-- Advertised peer (hop count 1) used by the C7 witness. -/
def c7_witness_update : RoutingPeerInfo :=
  { peer_id := 3, ip_address := "", port := 0, hop_count := 1
    next_hop_peer_id := 3, reliability_score := 1, bandwidth_estimate := 1000000 }

/-- C7 witness: processing an advertisement of unknown peer 3 at hop count 1
from source 2 installs the route 3 via 2 with hop count 2. -/
theorem c7_route_update_rules_witness :
    alist_lookup 3 ((process_peer_update (PeerRouter.initial 1) 2
        c7_witness_update)).routing_table =
      some { destination_peer_id := 3
             next_hop_peer_id := 2
             hop_count := (c7_witness_update.hop_count + 1) % 256
             metric := calculate_route_metric
               { c7_witness_update with
                 hop_count := (c7_witness_update.hop_count + 1) % 256
                 next_hop_peer_id := 2 } } := by
  have h := (c7_route_update_rules (PeerRouter.initial 1)
    { source_peer_id := 2, peer_updates := [c7_witness_update],
      sequence_number := 0, hop_count := 0 } 2 c7_witness_update).2.2.2
    (by decide) (by decide) (by decide)
  exact h.1 (Or.inl rfl)

/-! ### Routing-table invariant (C8) -/

/-- Routers reachable through add_direct_peer and handle_route_update from a
fresh router. -/
inductive RouterReachable : PeerRouter → Prop where
  | init (local_peer_id : Nat) : RouterReachable (PeerRouter.initial local_peer_id)
  | add_direct (r : PeerRouter) (peer_id : Nat) (ip : String) (port : Nat) :
      RouterReachable r → RouterReachable (r.add_direct_peer peer_id ip port)
  | route_update (r : PeerRouter) (message : RouteUpdateMessage) :
      RouterReachable r → RouterReachable (r.handle_route_update message)

theorem alist_insert_mem {α : Type} (k : Nat) (v : α) (l : List (Nat × α)) :
    ∀ p ∈ alist_insert k v l, p = (k, v) ∨ p ∈ l := by
  induction l with
  | nil =>
      intro p hp
      simp only [alist_insert, List.mem_singleton] at hp
      exact Or.inl hp
  | cons q t ih =>
      intro p hp
      obtain ⟨k2, v2⟩ := q
      simp only [alist_insert] at hp
      by_cases hq : k2 = k
      · rw [if_pos hq] at hp
        rcases List.mem_cons.mp hp with h | h
        · exact Or.inl h
        · exact Or.inr (List.mem_cons_of_mem _ h)
      · rw [if_neg hq] at hp
        rcases List.mem_cons.mp hp with h | h
        · exact Or.inr (h ▸ List.mem_cons_self _ _)
        · rcases ih p h with h2 | h2
          · exact Or.inl h2
          · exact Or.inr (List.mem_cons_of_mem _ h2)

/-- Every installed route has hop count strictly below MAX_HOP_COUNT. -/
def table_hops_bounded (r : PeerRouter) : Prop :=
  ∀ p ∈ r.routing_table, p.2.hop_count < MAX_HOP_COUNT

theorem process_peer_update_hops (r : PeerRouter) (source_peer_id : Nat)
    (peer_update : RoutingPeerInfo) (h : table_hops_bounded r) :
    table_hops_bounded (process_peer_update r source_peer_id peer_update) := by
  unfold process_peer_update
  by_cases h1 : peer_update.peer_id = r.local_peer_id
  · rw [if_pos h1]
    exact h
  · rw [if_neg h1]
    dsimp only
    by_cases h2 : (peer_update.hop_count + 1) % 256 ≥ MAX_HOP_COUNT
    · rw [if_pos h2]
      exact h
    · rw [if_neg h2]
      by_cases h3 : ((match alist_lookup peer_update.peer_id r.known_peers with
          | none => true
          | some _ =>
            match alist_lookup peer_update.peer_id r.routing_table with
            | none => false
            | some existing_route =>
              decide ((peer_update.hop_count + 1) % 256 < existing_route.hop_count ∨
                ((peer_update.hop_count + 1) % 256 = existing_route.hop_count ∧
                  calculate_route_metric peer_update < existing_route.metric))) = true ∧
          r.routing_table.length < MAX_ROUTING_ENTRIES)
      · rw [if_pos h3]
        intro p hp
        rcases alist_insert_mem _ _ _ p hp with rfl | hmem
        · dsimp only
          omega
        · exact h p hmem
      · rw [if_neg h3]
        exact h

theorem foldl_process_hops (updates : List RoutingPeerInfo) (source_peer_id : Nat) :
    ∀ (r : PeerRouter), table_hops_bounded r →
      table_hops_bounded (updates.foldl
        (fun acc peer_update => process_peer_update acc source_peer_id peer_update) r) := by
  induction updates with
  | nil => intro r h; exact h
  | cons u rest ih =>
      intro r h
      exact ih _ (process_peer_update_hops r source_peer_id u h)

theorem handle_route_update_hops (r : PeerRouter) (message : RouteUpdateMessage)
    (h : table_hops_bounded r) :
    table_hops_bounded (r.handle_route_update message) := by
  unfold PeerRouter.handle_route_update
  by_cases h1 : message.source_peer_id = r.local_peer_id
  · rw [if_pos h1]
    exact h
  · rw [if_neg h1]
    by_cases h2 : message.hop_count ≥ MAX_HOP_COUNT
    · rw [if_pos h2]
      exact h
    · rw [if_neg h2]
      exact foldl_process_hops message.peer_updates message.source_peer_id r h

theorem add_direct_peer_hops (r : PeerRouter) (peer_id : Nat) (ip : String)
    (port : Nat) (h : table_hops_bounded r) :
    table_hops_bounded (r.add_direct_peer peer_id ip port) := by
  unfold PeerRouter.add_direct_peer
  intro p hp
  rcases alist_insert_mem _ _ _ p hp with rfl | hmem
  · dsimp only
    decide
  · exact h p hmem

theorem router_reachable_hops (r : PeerRouter) (h : RouterReachable r) :
    table_hops_bounded r := by
  induction h with
  | init local_peer_id =>
      intro p hp
      simp [PeerRouter.initial] at hp
  | add_direct r peer_id ip port _ ih =>
      exact add_direct_peer_hops r peer_id ip port ih
  | route_update r message _ ih =>
      exact handle_route_update_hops r message ih

/-- The adversarial route update used to break the hop-1 equivalence: source
peer 2 advertises itself at hop count 1. -/
def c8_self_advert_message : RouteUpdateMessage :=
  { source_peer_id := 2
    peer_updates := [{ peer_id := 2, ip_address := "", port := 0, hop_count := 1
                       next_hop_peer_id := 2, reliability_score := 1
                       bandwidth_estimate := 1000000 }]
    sequence_number := 0
    hop_count := 0 }

def c8_router : PeerRouter :=
  (PeerRouter.initial 1).handle_route_update c8_self_advert_message

/-- C8 counterexample: after one reachable handle_route_update (peer 2
advertising itself at hop 1), the installed route to 2 has next_hop ==
destination but hop_count = 2, refuting `hop_count == 1 ↔ next_hop ==
destination`. -/
theorem c8_counterexample :
    RouterReachable c8_router ∧
      (alist_lookup 2 c8_router.routing_table).map
          (fun e => (e.hop_count, e.next_hop_peer_id == e.destination_peer_id)) =
        some (2, true) := by
  constructor
  · exact RouterReachable.route_update _ _ (RouterReachable.init 1)
  · rfl

/-- C8 (amended): every route reachable through add_direct_peer and
handle_route_update has hop_count ≤ 16 (in fact < 16); the equivalence
`hop_count == 1 ↔ next_hop == destination` holds for the route installed by
add_direct_peer (hop 1, next hop = destination) but not in general, since
handle_route_update can install a hop-2 route whose next hop equals its
destination (see the counterexample). -/
theorem c8_route_invariant :
    (∀ (r : PeerRouter), RouterReachable r →
      ∀ p ∈ r.routing_table, p.2.hop_count ≤ 16) ∧
    (∀ (r : PeerRouter) (peer_id : Nat) (ip : String) (port : Nat),
      alist_lookup peer_id (r.add_direct_peer peer_id ip port).routing_table =
        some { destination_peer_id := peer_id
               next_hop_peer_id := peer_id
               hop_count := 1
               metric := calculate_route_metric
                 { peer_id := peer_id, ip_address := ip, port := port, hop_count := 1
                   next_hop_peer_id := peer_id, reliability_score := 1
                   bandwidth_estimate := 1000000 } }) := by
  constructor
  · intro r h p hp
    have := router_reachable_hops r h p hp
    unfold MAX_HOP_COUNT at this
    omega
  · intro r peer_id ip port
    unfold PeerRouter.add_direct_peer
    dsimp only
    exact alist_lookup_insert_self _ _ _

/-- C8 witness: the invariant applied to the reachable router that adds
direct peer 2, whose installed route has hop count 1 ≤ 16 and next hop equal
to its destination. -/
def c8_direct_route : RouteEntry :=
  { destination_peer_id := 2, next_hop_peer_id := 2, hop_count := 1
    metric := calculate_route_metric
      { peer_id := 2, ip_address := "ip", port := 8080, hop_count := 1
        next_hop_peer_id := 2, reliability_score := 1, bandwidth_estimate := 1000000 } }

theorem c8_route_invariant_witness :
    ((2, c8_direct_route) ∈
        ((PeerRouter.initial 1).add_direct_peer 2 "ip" 8080).routing_table) ∧
      (2, c8_direct_route).2.hop_count ≤ 16 := by
  have hmem : (2, c8_direct_route) ∈
      ((PeerRouter.initial 1).add_direct_peer 2 "ip" 8080).routing_table := by
    simp [PeerRouter.add_direct_peer, PeerRouter.initial, alist_insert, c8_direct_route]
  exact ⟨hmem, c8_route_invariant.1 _
    (RouterReachable.add_direct _ 2 "ip" 8080 (RouterReachable.init 1)) _ hmem⟩

/-! ## Peer fingerprint (src/crypto/secure_handshake.cpp, src/crypto/key_manager.cpp)

Hex rendering of uint8 values as in "%02x" / setw(2) with fill 0. -/

/-- One lowercase hex digit for a value below 16. -/
def hex_digit (n : Nat) : Char :=
  if n < 10 then Char.ofNat (48 + n) else Char.ofNat (87 + n)

/-- Two-digit lowercase hex rendering of a byte. -/
def byte_to_hex (b : Nat) : String :=
  String.mk [hex_digit (b / 16), hex_digit (b % 16)]

/-- The fingerprint-building loop of SecureHandshake::get_peer_fingerprint
(secure_handshake.cpp lines 347-358) over the 32-byte BLAKE3 digest: first 8
hash bytes in hex, joined with a colon before every byte but the first. -/
def fingerprint_of_hash (hash : List Nat) : String :=
  (List.range 8).foldl
    (fun fingerprint i =>
      if 0 < i then fingerprint ++ ":" ++ byte_to_hex (hash.getD i 0)
      else fingerprint ++ byte_to_hex (hash.getD i 0))
    ""

/-- SecureHandshake::get_peer_fingerprint: hash the identity public key with
BLAKE3 (abstract parameter), then render the first 8 digest bytes. -/
def get_peer_fingerprint (blake3 : List Nat → List Nat) (public_key : List Nat) :
    String :=
  fingerprint_of_hash (blake3 public_key)

/-- KeyManager::get_peer_id (key_manager.cpp lines 295-308): the first 8
bytes of the identity public key itself, rendered as plain hex. -/
def get_peer_id (has_identity_keys : Bool) (public_key : List Nat) : String :=
  if has_identity_keys then
    (List.range 8).foldl (fun oss i => oss ++ byte_to_hex (public_key.getD i 0)) ""
  else
    "unknown"

/-- The spec wording: the 8-byte truncation of the public key, rendered in
hex. -/
def spec_truncated_key_hex (public_key : List Nat) : String :=
  String.join ((public_key.take 8).map byte_to_hex)

/-- The colon-separated hex of the first 8 bytes of a digest, as an
independent formulation for comparison with the loop in the code. -/
def spec_colon_hex (hash : List Nat) : String :=
  String.intercalate ":" ((hash.take 8).map byte_to_hex)

/-- Hash stand-in for the counterexample; the refutation below is independent
of the digest values because the two renderings differ in shape. -/
def sample_hash_fn (l : List Nat) : List Nat := l

/-- C9 counterexample: for the all-zero 32-byte public key, the printable
fingerprint ("00:00:00:00:00:00:00:00", built from the BLAKE3 digest with
colon separators) is not the 8-byte truncation of the public key rendered in
hex ("0000000000000000"), whatever the digest: the two renderings already
differ in length (23 vs 16 characters). -/
theorem c9_counterexample :
    get_peer_fingerprint sample_hash_fn (List.replicate 32 0) ≠
      spec_truncated_key_hex (List.replicate 32 0) := by
  decide

/-- C9 (amended): the printable peer fingerprint is the colon-separated hex
of the first 8 bytes of the BLAKE3 digest of the public key (for every hash
function and every key); the plain 8-byte truncation of the public key
rendered in hex is KeyManager::get_peer_id, produced when identity keys are
loaded. -/
theorem c9_fingerprint (blake3 : List Nat → List Nat) (public_key : List Nat)
    (hhash : 8 ≤ (blake3 public_key).length) (hkey : 8 ≤ public_key.length) :
    get_peer_fingerprint blake3 public_key = spec_colon_hex (blake3 public_key) ∧
      get_peer_id true public_key = spec_truncated_key_hex public_key := by
  constructor
  · unfold get_peer_fingerprint
    generalize blake3 public_key = hash at hhash
    match hash, hhash with
    | b0 :: b1 :: b2 :: b3 :: b4 :: b5 :: b6 :: b7 :: t, _ => rfl
  · unfold get_peer_id spec_truncated_key_hex
    rw [if_pos rfl]
    match public_key, hkey with
    | b0 :: b1 :: b2 :: b3 :: b4 :: b5 :: b6 :: b7 :: t, _ => rfl

/-- C9 witness: the amended theorem at the stand-in hash and the 32-byte key
0,1,...,31. -/
theorem c9_fingerprint_witness :
    8 ≤ (sample_hash_fn (List.range 32)).length ∧
    8 ≤ (List.range 32).length ∧
    get_peer_fingerprint sample_hash_fn (List.range 32) =
        spec_colon_hex (sample_hash_fn (List.range 32)) ∧
      get_peer_id true (List.range 32) = spec_truncated_key_hex (List.range 32) := by
  have h := c9_fingerprint sample_hash_fn (List.range 32) (by decide) (by decide)
  exact ⟨by decide, by decide, h.1, h.2⟩

end HyperShare
